import Mathlib

/-
Verification of the Statement Parsing & Reconciliation Engine
(`app/utils/parser.py` and `app/utils/parser_saphir.py`).

The Python source is shallowly embedded: pure string helpers become Lean
functions over `List Char` / `String`, Python floats become exact
unreduced fractions `Q` (exact for every value the claims exercise), regex token extraction is
taken at the match-list boundary (a row's trailing text is given
together with the list of regex matches, span and text, that
`re.finditer` produces on it), and fallible code returns `Option`.
-/

namespace OCRFin

/- Whitespace code points treated as whitespace by Python's `\s` and
`str.strip()`, restricted to those occurring in this code base: ASCII
whitespace plus the four `SPACE_VARIANTS` of parser_saphir.py and NBSP. -/
def pySpace (c : Char) : Bool :=
  c == ' ' || c == '\t' || c == '\n' || c == '\r' || c == '\x0b' || c == '\x0c' ||
  c == '\u00A0' || c == '\u202F' || c == '\u2009' || c == '\u2007'

/- Python word character (`\w`), ASCII fragment. -/
def wordChar (c : Char) : Bool :=
  c.isAlphanum || c == '_'

/- Splitting a line into maximal whitespace-free words (accumulator
holds the current word reversed). -/
def wordsAux : List Char → List Char → List (List Char)
  | [], acc => if acc.isEmpty then [] else [acc.reverse]
  | c :: cs, acc =>
    if pySpace c then
      if acc.isEmpty then wordsAux cs [] else acc.reverse :: wordsAux cs []
    else wordsAux cs (c :: acc)

def words (l : List Char) : List (List Char) := wordsAux l []

def joinSp : List (List Char) → List Char
  | [] => []
  | [w] => w
  | w :: ws => w ++ ' ' :: joinSp ws

/- `_norm_spaces` of parser_saphir.py: replace the space-variant code
points by an ASCII space, collapse `\s+` runs to a single space, and
strip.  Splitting into maximal non-whitespace words and re-joining with
single spaces computes exactly that string (the space variants are
whitespace both before and after the replacement). - Also used for the
`re.sub(r"\s+", " ", s).strip()` idiom of parser.py. -/
def norm_spaces_l (l : List Char) : List Char := joinSp (words l)

def norm_spaces (s : String) : String := ⟨norm_spaces_l s.data⟩

/- Python `str.strip()` (no arguments). -/
def py_strip_l (l : List Char) : List Char :=
  ((l.dropWhile pySpace).reverse.dropWhile pySpace).reverse

def py_strip (s : String) : String := ⟨py_strip_l s.data⟩

def digitsVal (l : List Char) : Nat :=
  l.foldl (fun n c => 10 * n + (c.toNat - '0'.toNat)) 0

/- Exact rational numbers as unreduced fractions with a positive
denominator, standing in for Python floats (exact for every value the
claims exercise).  Comparisons cross-multiply, so every operation is a
plain integer computation and reduces in the kernel. -/
structure Q where
  num : Int
  den : Nat
deriving DecidableEq, Repr

def qofn (n : Nat) : Q := ⟨n, 1⟩

/- Semantic order and equality of fractions. -/
def qle (a b : Q) : Bool := decide (a.num * (b.den : Int) ≤ b.num * (a.den : Int))

def qeq (a b : Q) : Bool := a.num * (b.den : Int) == b.num * (a.den : Int)

def qsub (a b : Q) : Q := ⟨a.num * b.den - b.num * a.den, a.den * b.den⟩

def qabs (a : Q) : Q := ⟨if a.num < 0 then -a.num else a.num, a.den⟩

def qmax (a b : Q) : Q := if qle a b then b else a

/- Division; at its only call site the divisor is `max 1 |a|`, hence
positive. -/
def qdiv (a b : Q) : Q :=
  if b.num < 0 then ⟨-(a.num * b.den), a.den * b.num.natAbs⟩
  else ⟨a.num * b.den, a.den * b.num.natAbs⟩

def qneg (a : Q) : Q := ⟨-a.num, a.den⟩

/- Python `float()` restricted to the simple forms that the amount
normalisers can produce: an optional sign, integer digits, an optional
decimal point and fraction digits, with at least one digit.  The other
accepted `float` syntaxes (exponents, `inf`, `nan`, underscores,
surrounding whitespace) cannot reach these call sites. -/
def pyFloat (l : List Char) : Option Q :=
  let neg : Bool := l.head? == some '-'
  let l1 := match l with
    | '-' :: r => r
    | '+' :: r => r
    | r => r
  let ip := l1.takeWhile Char.isDigit
  let r1 := l1.dropWhile Char.isDigit
  let core : Option Q :=
    match r1 with
    | [] => if ip.isEmpty then none else some (qofn (digitsVal ip))
    | '.' :: r2 =>
      let fp := r2.takeWhile Char.isDigit
      let r3 := r2.dropWhile Char.isDigit
      if !r3.isEmpty then none
      else if ip.isEmpty && fp.isEmpty then none
      else some ⟨digitsVal ip * 10 ^ fp.length + digitsVal fp, 10 ^ fp.length⟩
    | _ => none
  match core with
  | none => none
  | some v => some (if neg then qneg v else v)

def parseQ (s : String) : Option Q := pyFloat s.data

/- Python `str.replace old new`, all occurrences left to right.  Fuel is
the input length; a replacement consumes at least one character, so the
fuel never runs out.  The call sites never pass an empty `old`. -/
def replace_go (old new : List Char) : Nat → List Char → List Char
  | 0, l => l
  | _ + 1, [] => []
  | n + 1, c :: cs =>
    if old.isPrefixOf (c :: cs) then new ++ replace_go old new n ((c :: cs).drop old.length)
    else c :: replace_go old new n cs

def py_replace (s old new : String) : String :=
  if old.data.isEmpty then s else ⟨replace_go old.data new.data s.data.length s.data⟩

/- Substring test, Python's `needle in haystack`. -/
def contains_sub (need : List Char) : List Char → Bool
  | [] => need.isEmpty
  | c :: t => need.isPrefixOf (c :: t) || contains_sub need t

/- Python `str.find`: index of the first occurrence, `none` for `-1`. -/
def idx_of (need : List Char) : List Char → Option Nat
  | [] => if need.isEmpty then some 0 else none
  | c :: t => if need.isPrefixOf (c :: t) then some 0 else (idx_of need t).map (· + 1)

/- Python `str.lower()`, ASCII fragment; the non-ASCII letters in the
label phrases of this code base (é) are already lower case. -/
def lower_s (s : String) : String := ⟨s.data.map Char.toLower⟩

inductive Sens
  | Cr
  | Dr
deriving DecidableEq, Repr

/- Dropping one trailing `.` or `,`, the `re.sub(r"[.,]$", "", s)` of
parser.py `_normalize_amount`. -/
def strip_one_trailing_dot (l : List Char) : List Char :=
  match l.reverse with
  | '.' :: r => r.reverse
  | ',' :: r => r.reverse
  | _ => l

/- parser.py `_normalize_amount`: strip, drop NBSP/spaces, drop currency
symbols and parentheses, commas to dots, keep only `[0-9.\-]`, drop one
trailing separator. -/
def normalize_amount (s : String) : String :=
  let s1 := py_strip s
  let s2 := py_replace s1 "\u00A0" " "
  let s3 := py_replace s2 " " ""
  let s4 := py_replace (py_replace (py_replace (py_replace s3 "XAF" "") "FCFA" "") "xaf" "") "fcfa" ""
  let s5 := py_replace (py_replace (py_replace (py_replace s4 "€" "") "$" "") "(" "") ")" ""
  let s6 := py_replace s5 "," "."
  let s7 : List Char := s6.data.filter (fun c => c.isDigit || c == '.' || c == '-')
  ⟨strip_one_trailing_dot s7⟩

/- parser.py `_close_enough`: tolerance of 2% relative or ±5 absolute;
the `None` guards cannot fire at the call site (both arguments come from
successfully parsed numbers). -/
def close_enough (a b : Q) : Bool :=
  if qeq a (qofn 0) then qle (qabs b) (qofn 1)
  else qle (qdiv (qabs (qsub a b)) (qmax (qofn 1) (qabs a))) ⟨1, 50⟩ ||
    qle (qabs (qsub a b)) (qofn 5)

def insert_le (le : α → α → Bool) (x : α) : List α → List α
  | [] => [x]
  | y :: ys => if le x y then x :: y :: ys else y :: insert_le le x ys

/- Stable insertion sort; agrees with Python's stable `list.sort` and
`sorted` for the keyed comparisons used in parser.py. -/
def sort_le (le : α → α → Bool) : List α → List α
  | [] => []
  | x :: xs => insert_le le x (sort_le le xs)

/- One `_AMOUNT_TOKEN` regex match in a row's trailing text: span start,
span end, matched text.  The match list produced by `re.finditer` is the
input boundary of this embedding. -/
structure PTok where
  s : Nat
  e : Nat
  txt : String
deriving DecidableEq, Repr

/- A token of parser.py line 307: span, normalised text and parsed value. -/
structure Parsed5 where
  s : Nat
  e : Nat
  norm : String
  val : Q
deriving DecidableEq, Repr

/- parser.py lines 299-307: keep the tokens whose normalised text parses
as a number. -/
def parse_tokens (toks : List PTok) : List Parsed5 :=
  toks.filterMap fun t =>
    (parseQ (normalize_amount t.txt)).map fun v =>
      { s := t.s, e := t.e, norm := normalize_amount t.txt, val := v }

def debit_keywords : List String :=
  ["frais", "commission", "comm.", "tx", "taxe", "découvert", "decouvert",
   "intérêts", "interets", "intérêts débiteurs", "interets debiteurs",
   "prélèv", "prelev", "prelv", "dbt"]

def credit_keywords : List String :=
  ["virement", "versement", "remboursement", "remb", "cime", "salaire", "crédit", "credit"]

/- parser.py lines 351-356: `any(k in tail.lower() for k in kws)`. -/
def has_any_kw (tail : String) (kws : List String) : Bool :=
  kws.any fun k => contains_sub k.data (lower_s tail).data

/- One recomposed SAFIR row of parser.py: the trailing text after the
two leading dates (group 3 of `row_re`) and its `_AMOUNT_TOKEN` matches. -/
structure SafirRow where
  date : String
  tail : String
  toks : List PTok

/- The transaction dict built by `parse_safir_transactions` for one row,
plus the two byte spans it removes from the trailing text (`m_span` for
the chosen amount, `s_span` for the balance).  The cleaned description
is a projection not needed by any claim and is left out. -/
structure SafirTx where
  date : String
  montant : Option String
  sens : Option Sens
  solde_norm : Option String
  solde_val : Option Q
  m_span : Option (Nat × Nat)
  s_span : Option (Nat × Nat)
deriving DecidableEq, Repr

def le_start (a b : Parsed5) : Bool := decide (a.s ≤ b.s)

/- parser.py lines 326-341: the movement-amount choice for a row whose
sorted token list is `ps` with balance token `solde = ps[-1]`.  First
the delta match among `parsed[:-1]` (closest to `|solde - prev|`,
accepted under `_close_enough`), then the positional fallback
`parsed[-2]`, and `parsed[0]` for a single-token row — in that case
`parsed[0]` is the balance token itself. -/
def choose_montant (prev : Option Q) (ps : List Parsed5) (solde : Parsed5) : Parsed5 :=
  let cands := ps.dropLast
  let byDelta : Option Parsed5 :=
    match prev with
    | none => none
    | some pb =>
      let delta := qabs (qsub solde.val pb)
      match (sort_le (fun a b => qle (qabs (qsub a.val delta)) (qabs (qsub b.val delta))) cands).head? with
      | none => none
      | some best => if close_enough delta best.val then some best else none
  match byDelta with
  | some mm => mm
  | none => cands.getLast?.getD solde

/- parser.py lines 293-387, the per-row core of `parse_safir_transactions`:
returns the emitted transaction and the `prev_solde` passed to the next
row.  Sorting an empty list is empty, so matching on the last element of
the sorted list is the `if not parsed` test of line 309. -/
def safir_row_step (prev : Option Q) (r : SafirRow) : SafirTx × Option Q :=
  let ps := sort_le le_start (parse_tokens r.toks)
  match ps.getLast? with
  | none =>
    ({ date := r.date, montant := none, sens := none, solde_norm := none,
       solde_val := none, m_span := none, s_span := none }, prev)
  | some solde =>
    let m := choose_montant prev ps solde
    let sens : Option Sens :=
      match prev with
      | some pb => some (if qle pb solde.val then Sens.Cr else Sens.Dr)
      | none =>
        if has_any_kw r.tail credit_keywords then some Sens.Cr
        else if has_any_kw r.tail debit_keywords then some Sens.Dr
        else none
    ({ date := r.date, montant := some m.norm, sens := sens,
       solde_norm := some solde.norm, solde_val := some solde.val,
       m_span := some (m.s, m.e), s_span := some (solde.s, solde.e) },
     some solde.val)

/- The transactions emitted by the row loop of `parse_safir_transactions`. -/
def safir_txs (prev : Option Q) : List SafirRow → List SafirTx
  | [] => []
  | r :: rs => (safir_row_step prev r).1 :: safir_txs (safir_row_step prev r).2 rs

/- The `prev_solde` states seen by the row loop: entry `i` is the state
used when processing row `i`. -/
def safir_states (prev : Option Q) : List SafirRow → List (Option Q)
  | [] => [prev]
  | r :: rs => prev :: safir_states (safir_row_step prev r).2 rs

/- Matching `XAF` (3 chars) case-insensitively with a trailing word
boundary, as in `re.sub(r"(XAF|FCFA)\b", ...)` of parser_saphir.py. -/
def xaf_at : List Char → Bool
  | x :: a :: f :: r =>
    x.toUpper == 'X' && a.toUpper == 'A' && f.toUpper == 'F' &&
      (match r with | [] => true | d :: _ => !wordChar d)
  | _ => false

def fcfa_at : List Char → Bool
  | f :: c :: f2 :: a :: r =>
    f.toUpper == 'F' && c.toUpper == 'C' && f2.toUpper == 'F' && a.toUpper == 'A' &&
      (match r with | [] => true | d :: _ => !wordChar d)
  | _ => false

/- `re.sub(r"(XAF|FCFA)\b", "", t, flags=re.I)`: remove every
case-insensitive XAF/FCFA followed by a word boundary (no leading
boundary is required by that pattern).  Fuel is the input length. -/
def currency_go : Nat → List Char → List Char
  | 0, l => l
  | _ + 1, [] => []
  | n + 1, c :: cs =>
    if xaf_at (c :: cs) then currency_go n ((c :: cs).drop 3)
    else if fcfa_at (c :: cs) then currency_go n ((c :: cs).drop 4)
    else c :: currency_go n cs

/- parser_saphir.py `_strip_currency_and_sign`: returns the remaining
text and the sign. -/
def strip_cur_sign (txt : String) : List Char × Int :=
  let t0 := py_strip_l txt.data
  let t1 := t0.map (fun c => if c == '\u2212' then '-' else c)
  let t2 := py_strip_l (currency_go t1.length t1)
  let p1 := if t2.head? == some '(' && t2.getLast? == some ')' then
      (py_strip_l ((t2.drop 1).dropLast), (-1 : Int))
    else (t2, (1 : Int))
  let p2 := if p1.1.getLast? == some '-' && !((p1.1.dropWhile pySpace).head? == some '-') then
      (py_strip_l p1.1.dropLast, (-1 : Int))
    else p1
  if (p2.1.dropWhile pySpace).head? == some '-' then
    (py_strip_l ((p2.1.dropWhile pySpace).drop 1), -p2.2)
  else p2

/- parser_saphir.py `_norm_amount_txt`: strip sign and currency, drop
space variants, resolve comma/dot separators, keep `[0-9.]`, re-attach
the sign. -/
def norm_amount_txt (txt : String) : String :=
  let p := strip_cur_sign txt
  let raw1 := p.1.filter (fun c =>
    !(c == ' ' || c == '\u00A0' || c == '\u202F' || c == '\u2009' || c == '\u2007'))
  let raw2 :=
    if raw1.contains '.' && raw1.contains ',' then
      (raw1.filter (fun c => !(c == '.'))).map (fun c => if c == ',' then '.' else c)
    else if raw1.contains ',' then raw1.map (fun c => if c == ',' then '.' else c)
    else if 1 < raw1.count '.' then raw1.filter (fun c => !(c == '.'))
    else raw1
  let raw3 := raw2.filter (fun c => c.isDigit || c == '.')
  if p.2 < 0 && !raw3.isEmpty then ⟨'-' :: raw3⟩ else ⟨raw3⟩

/- parser_saphir.py `_to_number`. -/
def to_number (txt : String) : Option Q := parseQ (norm_amount_txt txt)

/- A piece of a row's trailing text (after `_norm_spaces` and the
`re.sub(DATE_RE, "", tail).strip()` of line 257): either plain text or
one `AMOUNT_RE` match, carrying the text of its group 1.  Concatenating
the pieces (a currency suffix consumed by a match stays in the
following text piece) restores the trailing text; this finditer
decomposition is the input boundary of the embedding. -/
inductive Piece
  | txt (s : String)
  | tok (s : String)
deriving DecidableEq, Repr

def piece_str : Piece → String
  | .txt s => s
  | .tok s => s

def pieces_tail (ps : List Piece) : String :=
  ps.foldl (fun acc p => acc ++ piece_str p) ""

/- Lines 260-261: the normalised token texts, dropping those whose
normalisation is empty (Python truthiness filter). -/
def pieces_nums (ps : List Piece) : List String :=
  ps.filterMap fun p =>
    match p with
    | .txt _ => none
    | .tok t => if norm_amount_txt t == "" then none else some (norm_amount_txt t)

/- The dict returned by the live part of `_parse_saphir_row`
(parser_saphir.py lines 248-297).  The code after the `return` of line
291 is unreachable and is not part of the embedding. -/
structure PSTx where
  date : String
  description : String
  montant : Option String
  sens : Option Sens
  solde : Option String
deriving DecidableEq, Repr

/- A row handed to `_parse_saphir_row`: either one that does not match
`DATE_LINE_RE`, or the two captured dates plus the decomposition of the
date-stripped trailing text. -/
inductive PSRowIn
  | noMatch
  | matched (date dval : String) (pieces : List Piece)
deriving DecidableEq, Repr

def py_truthy : Option String → Bool
  | none => false
  | some s => !(s == "")

/- Lines 266-284: positional column assignment `debit? credit? solde`
via the tail of the list, then the amount/direction choice. -/
def assign_cols (nums : List String) : Option String × Option String × Option String :=
  match nums.reverse with
  | [] => (none, none, none)
  | [s] => (none, none, some s)
  | [s, d] => (some d, none, some s)
  | s :: c :: d :: _ => (some d, some c, some s)

def pick_amount (debit credit : Option String) : Option String × Option Sens :=
  if py_truthy debit && !(debit == some "0") then (debit, some Sens.Dr)
  else if py_truthy credit && !(credit == some "0") then (credit, some Sens.Cr)
  else (none, none)

/- parser_saphir.py `_parse_saphir_row`, live part (lines 248-297).  The
`prev` argument mirrors the Python parameter `prev_balance`, which the
live code never reads. -/
def parse_saphir_row : PSRowIn → Option Q → Option PSTx
  | .noMatch, _ => none
  | .matched date _dval pieces, _prev =>
    let tail := pieces_tail pieces
    let nums := pieces_nums pieces
    if nums.isEmpty then none
    else
      let cols := assign_cols nums
      let ms := pick_amount cols.1 cols.2.1
      let desc := norm_spaces (nums.foldl (fun d n => py_replace d n "") tail)
      some { date := date, description := desc, montant := ms.1, sens := ms.2,
             solde := cols.2.2 }

/- One step of the row loop of `parse_saphir_transactions` (lines
392-408): the emitted transaction, if any, and the updated
`prev_balance` (updated via `float(parsed["solde"])` under
`try/except`). -/
def saphir_step (prev : Option Q) (r : PSRowIn) : Option PSTx × Option Q :=
  match parse_saphir_row r prev with
  | none => (none, prev)
  | some tx =>
    (some tx,
      match tx.solde with
      | none => prev
      | some s =>
        match parseQ s with
        | some v => some v
        | none => prev)

def saphir_txs (prev : Option Q) : List PSRowIn → List PSTx
  | [] => []
  | r :: rs =>
    match parse_saphir_row r prev with
    | none => saphir_txs (saphir_step prev r).2 rs
    | some tx => tx :: saphir_txs (saphir_step prev r).2 rs

/- Entry `i` is the `prev_balance` used when processing row `i`. -/
def saphir_states (prev : Option Q) : List PSRowIn → List (Option Q)
  | [] => [prev]
  | r :: rs => prev :: saphir_states (saphir_step prev r).2 rs

/- Part of a line after its first colon, Python `l.split(":", 1)[1]`
when a colon is present. -/
def split_once_colon (s : String) : Option String :=
  match idx_of [':'] s.data with
  | some i => some ⟨s.data.drop (i + 1)⟩
  | none => none

/- Matching `XAF` with word boundaries on both sides, for the
`re.sub(r"\bXAF\b", "", compte, flags=re.I)` of `_extract_header`. -/
def xafw_go : Nat → Option Char → List Char → List Char
  | 0, _, l => l
  | _ + 1, _, [] => []
  | n + 1, prev, c :: cs =>
    if (match prev with | some p => !wordChar p | none => true) && xaf_at (c :: cs) then
      xafw_go n (some 'F') ((c :: cs).drop 3)
    else c :: xafw_go n (some c) cs

def remove_xaf_word (s : String) : String := ⟨xafw_go s.data.length none s.data⟩

/- A preamble line handed to `_extract_header`, together with the group-1
texts of the `AMOUNT_RE` matches on its normalised form (the
`AMOUNT_RE.search` of line 161 returns the head of that list). -/
structure HLine where
  line : String
  toks : List String
deriving Repr

structure Header where
  banque : String
  titulaire : String
  compte : String
  solde_initial : Option String
deriving DecidableEq, Repr

/- The hardcoded initial values of `_extract_header` (lines 138-140). -/
def header_init : Header :=
  { banque := "Afriland First Bank",
    titulaire := "SAFIR CONSULTING CAMEROUN",
    compte := "00002-08237521001-09 XAF",
    solde_initial := none }

/- The holder value the nom-du-client branch of `_extract_header`
(lines 146-148) extracts from one line: label present and a colon
found, otherwise `none` and the field is untouched. -/
def titu_value (hl : HLine) : Option String :=
  let l := norm_spaces hl.line
  if contains_sub "nom du client".data (lower_s l).data then
    (split_once_colon l).map py_strip
  else none

/- The holder value of the libellé-du-compte fallback branch
(lines 149-152). -/
def libelle_value (hl : HLine) : Option String :=
  let l := norm_spaces hl.line
  if contains_sub "libellé du compte".data (lower_s l).data then
    (split_once_colon l).map py_strip
  else none

/- The account value of the numéro-de-compte branch (lines 154-158). -/
def acct_value (hl : HLine) : Option String :=
  let l := norm_spaces hl.line
  let low := lower_s l
  if contains_sub "numéro de compte".data low.data ||
     contains_sub "numero de compte".data low.data then
    (split_once_colon l).map fun v => py_strip (remove_xaf_word (py_strip v))
  else none

/- The opening-balance value of the solde-initial branch (lines
160-163): first `AMOUNT_RE` match of the line, normalised. -/
def solde_value (hl : HLine) : Option String :=
  if contains_sub "solde initial".data (lower_s (norm_spaces hl.line)).data then
    hl.toks.head?.map norm_amount_txt
  else none

/- The four assignments of one scan-loop iteration of `_extract_header`
(lines 143-163), one per label branch: each branch assigns its field
exactly when its extractor yields a value, and the libellé fallback
fires only while the holder is the empty string (Python truthiness). -/
def step_titu (h : Header) (hl : HLine) : Header :=
  match titu_value hl with
  | some v => { h with titulaire := v }
  | none => h

def step_libelle (h : Header) (hl : HLine) : Header :=
  if h.titulaire == "" then
    match libelle_value hl with
    | some v => { h with titulaire := v }
    | none => h
  else h

def step_acct (h : Header) (hl : HLine) : Header :=
  match acct_value hl with
  | some v => { h with compte := v }
  | none => h

def step_solde (h : Header) (hl : HLine) : Header :=
  match solde_value hl with
  | some v => { h with solde_initial := some v }
  | none => h

/- One iteration of the scan loop of `_extract_header` (lines 143-163):
the four branches in source order. -/
def header_step (h : Header) (hl : HLine) : Header :=
  step_solde (step_acct (step_libelle (step_titu h hl) hl) hl) hl

def extract_header (lines : List HLine) : Header :=
  lines.foldl header_step header_init

/- Remainders after matching the day part of `DATE_RE`
(`0?[1-9]|[12][0-9]|3[01]`), every alternative. -/
def day_rems (l : List Char) : List (List Char) :=
  (match l with
   | c :: r => if '1' ≤ c && c ≤ '9' then [r] else []
   | [] => []) ++
  (match l with
   | '0' :: c :: r => if '1' ≤ c && c ≤ '9' then [r] else []
   | _ => []) ++
  (match l with
   | c :: d :: r => if (c == '1' || c == '2') && d.isDigit then [r] else []
   | _ => []) ++
  (match l with
   | '3' :: c :: r => if c == '0' || c == '1' then [r] else []
   | _ => [])

/- Remainders after the month part (`0?[1-9]|1[0-2]`). -/
def month_rems (l : List Char) : List (List Char) :=
  (match l with
   | c :: r => if '1' ≤ c && c ≤ '9' then [r] else []
   | [] => []) ++
  (match l with
   | '0' :: c :: r => if '1' ≤ c && c ≤ '9' then [r] else []
   | _ => []) ++
  (match l with
   | '1' :: c :: r => if c == '0' || c == '1' || c == '2' then [r] else []
   | _ => [])

def slash_then (rems : List (List Char)) : List (List Char) :=
  rems.filterMap fun r =>
    match r with
    | '/' :: r2 => some r2
    | _ => none

/- `re.match(DATE_RE, d)`: some prefix of `d` matches
day`/`month`/`year with a 2- or 4-digit year (two leading digits at the
year position suffice for a prefix match). -/
def date_re_prefix (s : String) : Bool :=
  (slash_then (day_rems s.data)).any fun r1 =>
    (slash_then (month_rems r1)).any fun r2 =>
      match r2 with
      | a :: b :: _ => a.isDigit && b.isDigit
      | _ => false

/- Python `str.split(sep)` for a one-character separator, empties kept. -/
def split_on_char (sep : Char) : List Char → List (List Char)
  | [] => [[]]
  | c :: cs =>
    if c == sep then [] :: split_on_char sep cs
    else
      match split_on_char sep cs with
      | w :: ws => (c :: w) :: ws
      | [] => [[c]]

/- Python `sep.join` for a one-character separator. -/
def join_char (sep : Char) : List (List Char) → List Char
  | [] => []
  | [w] => w
  | w :: ws => w ++ sep :: join_char sep ws

/- Year expansion of `_extract_period_from_txs` (lines 421-424):
`f"20{int(parts[-1]):02d}"` for a 2-character last part.  A 2-character
non-numeric last part would raise `ValueError` in Python; it is mapped
to the unexpanded string here and is unreachable from parser-produced
dates. -/
def expand_year (d : String) : String :=
  let parts := split_on_char '/' d.data
  match parts.getLast? with
  | some last =>
    if (last.length == 2) && last.all Char.isDigit then
      ⟨join_char '/' (parts.dropLast ++ [['2', '0'] ++ last])⟩
    else d
  | none => d

/- parser_saphir.py `_extract_period_from_txs`, over the `t.get("date")`
values of the transaction list. -/
def extract_period_from_txs (dates : List (Option String)) : Option String :=
  let ds := dates.filterMap fun d? =>
    match d? with
    | some d => if date_re_prefix d then some (expand_year d) else none
    | none => none
  match ds with
  | [] => none
  | d0 :: rest => some (d0 ++ " - " ++ (d0 :: rest).getLast (List.cons_ne_nil d0 rest))

/- Match of `\b\d{1,2}/\d{1,2}\s*/\s*\d{2,4}\b` at the head of `l`
(`prev` is the character just before `l`, for the leading `\b`).
Returns the replacement `\1/\2` (separator spaces removed) and the rest.
The digit runs must be fully consumed: a longer run makes every
backtracking alternative of the bounded quantifiers fail, because the
next required character is `/` or a word boundary. -/
def same_line_try (prev : Option Char) (l : List Char) : Option (List Char × List Char) :=
  if (match prev with | some c => wordChar c | none => false) then none
  else
    let d1 := l.takeWhile Char.isDigit
    let l1 := l.dropWhile Char.isDigit
    if !(decide (1 ≤ d1.length) && decide (d1.length ≤ 2)) then none
    else
      match l1 with
      | '/' :: l2 =>
        let d2 := l2.takeWhile Char.isDigit
        let l3 := l2.dropWhile Char.isDigit
        if !(decide (1 ≤ d2.length) && decide (d2.length ≤ 2)) then none
        else
          match l3.dropWhile pySpace with
          | '/' :: l5 =>
            let l6 := l5.dropWhile pySpace
            let run := l6.takeWhile Char.isDigit
            let l7 := l6.dropWhile Char.isDigit
            if decide (2 ≤ run.length) && decide (run.length ≤ 4) &&
               (match l7 with | [] => true | c :: _ => !wordChar c) then
              some (d1 ++ '/' :: d2 ++ '/' :: run, l7)
            else none
          | _ => none
      | _ => none

/- Global `re.sub` scan for the same-line date fix of
`_fix_split_dates` line 100; scanning resumes after each match, and the
boundary character after a match is the final digit of the match. -/
def same_line_go : Nat → Option Char → List Char → List Char
  | 0, _, l => l
  | _ + 1, _, [] => []
  | n + 1, prev, c :: cs =>
    match same_line_try prev (c :: cs) with
    | some p => p.1 ++ same_line_go n p.1.getLast? p.2
    | none => c :: same_line_go n (some c) cs

def same_line_fix (s : String) : String := ⟨same_line_go s.data.length none s.data⟩

/- `re.search(r"\b\d{1,2}/\d{1,2}\s*$", cur)`: the line ends in a
truncated date.  Checked from the right: optional trailing whitespace,
a full digit run of length 1-2, `/`, a full digit run of length 1-2,
and a word boundary before it. -/
def ends_trunc_date (s : String) : Bool :=
  let r := s.data.reverse.dropWhile pySpace
  let d2 := r.takeWhile Char.isDigit
  let r2 := r.dropWhile Char.isDigit
  decide (1 ≤ d2.length) && decide (d2.length ≤ 2) &&
    (match r2 with
     | '/' :: r3 =>
       let d1 := r3.takeWhile Char.isDigit
       let r4 := r3.dropWhile Char.isDigit
       decide (1 ≤ d1.length) && decide (d1.length ≤ 2) &&
         (match r4 with
          | [] => true
          | c :: _ => !wordChar c)
     | _ => false)

/- `re.match(r"^\s*/\s*(\d{2,4})(.*)$", nxt)`: the year digits (greedily
at most four) and the remaining text. -/
def start_slash_year (s : String) : Option (String × String) :=
  match s.data.dropWhile pySpace with
  | '/' :: r =>
    let r1 := r.dropWhile pySpace
    let run := r1.takeWhile Char.isDigit
    if decide (2 ≤ run.length) then
      some (⟨run.take 4⟩, ⟨r1.drop (min 4 run.length)⟩)
    else none
  | _ => none

/- `re.sub(r"(\b\d{1,2}/\d{1,2})\s*$", rf"\1/{yy}", cur)` under
`ends_trunc_date cur`: drop the trailing whitespace and append `/yy`. -/
def with_year (cur yy : String) : String :=
  ⟨(cur.data.reverse.dropWhile pySpace).reverse⟩ ++ "/" ++ yy

/- parser_saphir.py `_fix_split_dates`, with fuel (the list length;
each step consumes at least one line).  The outer `.strip()` of line
112 is a no-op there: the spliced line is non-empty and normalised on
both sides. -/
def fix_split_go : Nat → List String → List String
  | 0, _ => []
  | _ + 1, [] => []
  | n + 1, l :: ls =>
    let cur0 := same_line_fix (norm_spaces l)
    match ls with
    | [] => [cur0]
    | nxt :: ls2 =>
      if ends_trunc_date cur0 then
        match start_slash_year (norm_spaces nxt) with
        | some p =>
          let cur1 := with_year cur0 p.1
          let cur2 := if py_strip p.2 == "" then cur1 else cur1 ++ " " ++ py_strip p.2
          cur2 :: fix_split_go n ls2
        | none => cur0 :: fix_split_go n ls
      else cur0 :: fix_split_go n ls

def fix_split_dates (lines : List String) : List String :=
  fix_split_go lines.length lines

/- Character classes of `AMOUNT_RE` (parser_saphir.py lines 11-26):
thousands separators and signs. -/
def sepC (c : Char) : Bool :=
  c == ' ' || c == '\u00A0' || c == '\u202F' || c == '\u2009' || c == '\u2007' ||
  c == '.' || c == '\'' || c == '\u2019'

def signC (c : Char) : Bool := c == '-' || c == '\u2212'

/- `(?:sep\d{3})+`: one or more groups of a separator and three digits. -/
def groups1 : List Char → Bool
  | s :: a :: b :: c :: rest =>
    sepC s && a.isDigit && b.isDigit && c.isDigit && (rest.isEmpty || groups1 rest)
  | _ => false

/- `\d{1,3}(?:sep\d{3})+`. -/
def grouped_core (l : List Char) : Bool :=
  let ds := l.takeWhile Char.isDigit
  decide (1 ≤ ds.length) && decide (ds.length ≤ 3) && groups1 (l.dropWhile Char.isDigit)

/- `\d{4,}`. -/
def big_core (l : List Char) : Bool :=
  l.all Char.isDigit && decide (4 ≤ l.length)

/- `[.,]\d{2}`. -/
def dec_tail : List Char → Bool
  | [p, a, b] => (p == '.' || p == ',') && a.isDigit && b.isDigit
  | _ => false

/- `(?:grouped|big)(?:[.,]\d{2})?`. -/
def num_core (l : List Char) : Bool :=
  grouped_core l || big_core l ||
    (decide (3 ≤ l.length) && dec_tail (l.drop (l.length - 3)) &&
      (grouped_core (l.take (l.length - 3)) || big_core (l.take (l.length - 3))))

/- `\d{1,3}[.,]\d{2}`. -/
def alt2_core (l : List Char) : Bool :=
  decide (3 ≤ l.length) && dec_tail (l.drop (l.length - 3)) &&
    (l.take (l.length - 3)).all Char.isDigit &&
    decide (1 ≤ l.length - 3) && decide (l.length - 3 ≤ 3)

/- The optional `[\-−]?\s*` before the first two alternatives. -/
def after_sign (l : List Char) : List Char :=
  (match l with
   | c :: r => if signC c then r else l
   | [] => []).dropWhile pySpace

/- Inner text of a parenthesised alternative, whitespace trimmed
(`\(\s* ... \s*\)`). -/
def strip_parens (l : List Char) : Option (List Char) :=
  match l with
  | '(' :: r =>
    if r.getLast? == some ')' then some (py_strip_l r.dropLast) else none
  | _ => none

/- Whole-string acceptance of group 1 of `AMOUNT_RE`: the four verbose
alternatives of parser_saphir.py lines 17-22.  The lookarounds and the
optional currency suffix sit outside group 1. -/
def amount_tok_match (s : String) : Bool :=
  num_core (after_sign s.data) || alt2_core (after_sign s.data) ||
    (match strip_parens s.data with
     | some inner =>
       grouped_core inner ||
         (decide (3 ≤ inner.length) && dec_tail (inner.drop (inner.length - 3)) &&
           (inner.take (inner.length - 3)).all Char.isDigit &&
           decide (1 ≤ inner.length - 3))
     | none => false)

/- parser_saphir.py `_plausible_amount_token` (dead code in the current
tree: its only caller sits after the `return` of `_parse_saphir_row`). -/
def plausible_amount_token (text full_line : String) : Bool :=
  let norm := norm_amount_txt text
  if norm == "" then false
  else
    let slashReject :=
      match idx_of text.data full_line.data with
      | some idx =>
        decide (0 < idx) && (full_line.data.get? (idx - 1) == some '/')
      | none => false
    if slashReject then false
    else
      let digits := py_replace norm "." ""
      if decide (digits.length ≤ 2) then false
      else if ["2023", "2024", "2025", "2026", "2019", "2020", "2021", "2022"].contains digits then false
      else if contains_sub ['.'] norm.data then true
      else decide (4 ≤ digits.length)

/- Two half-open byte spans are disjoint. -/
def span_disjoint (a b : Nat × Nat) : Prop :=
  a.2 ≤ b.1 ∨ b.2 ≤ a.1

/- A preamble line matching none of the four header label phrases. -/
def no_header_labels (hl : HLine) : Bool :=
  let low := lower_s (norm_spaces hl.line)
  !(contains_sub "nom du client".data low.data) &&
  !(contains_sub "libellé du compte".data low.data) &&
  !(contains_sub "numéro de compte".data low.data) &&
  !(contains_sub "numero de compte".data low.data) &&
  !(contains_sub "solde initial".data low.data)

/- Match of parser.py `DATE_REGEX` (`\d{2}/\d{2}/\d{4}`, no boundaries)
at the head of `l`: the matched ten characters and the rest. -/
def date10_at (l : List Char) : Option (List Char × List Char) :=
  match l with
  | a :: b :: '/' :: c :: d :: '/' :: e :: f :: g :: h :: rest =>
    if a.isDigit && b.isDigit && c.isDigit && d.isDigit &&
       e.isDigit && f.isDigit && g.isDigit && h.isDigit then
      some ([a, b, '/', c, d, '/', e, f, g, h], rest)
    else none
  | _ => none

/- `re.findall(DATE_REGEX, line)`: non-overlapping matches, left to
right, scanning resuming after each match.  Fuel is the line length. -/
def findall_dates_go : Nat → List Char → List (List Char)
  | 0, _ => []
  | _ + 1, [] => []
  | n + 1, c :: cs =>
    match date10_at (c :: cs) with
    | some p => p.1 :: findall_dates_go n p.2
    | none => findall_dates_go n cs

def findall_dates (s : String) : List String :=
  (findall_dates_go s.data.length s.data).map fun l => ⟨l⟩

/- parser.py `detect_period` (lines 71-79): collect every
`\d{2}/\d{2}/\d{4}` match across the lines in order and return
"first - second" when at least two were found. -/
def detect_period (lines : List String) : Option String :=
  let dates := lines.foldl (fun acc line => acc ++ findall_dates line) []
  match dates with
  | d0 :: d1 :: _ => some (d0 ++ " - " ++ d1)
  | _ => none

/-
Theorems.  Claim theorems carry the claim id in their doc comment;
everything else is a shared helper lemma.
-/

/-- Claim C1: for the Saphir transaction parser of parser.py with known
previous balance 1000, a row whose trailing text carries the amount
tokens 50 and 950 yields amount "50", direction Debit and new running
balance 950, and a row with tokens 200 and 1200 yields amount "200",
direction Credit and new running balance 1200 — the movement amount
being the non-balance token closest to the balance delta accepted by
the `_close_enough` tolerance. -/
theorem safir_delta_direction_cases :
    (safir_row_step (some (qofn 1000))
        { date := "01/02/2021", tail := "OP X 50 950",
          toks := [⟨5, 7, "50"⟩, ⟨8, 11, "950"⟩] } =
      ({ date := "01/02/2021", montant := some "50", sens := some Sens.Dr,
          solde_norm := some "950", solde_val := some (qofn 950),
          m_span := some (5, 7), s_span := some (8, 11) }, some (qofn 950))) ∧
    (safir_row_step (some (qofn 1000))
        { date := "02/02/2021", tail := "OP Y 200 1200",
          toks := [⟨5, 8, "200"⟩, ⟨9, 13, "1200"⟩] } =
      ({ date := "02/02/2021", montant := some "200", sens := some Sens.Cr,
          solde_norm := some "1200", solde_val := some (qofn 1200),
          m_span := some (5, 8), s_span := some (9, 13) }, some (qofn 1200))) := by
  decide

/-- Claim C3: the result of `_parse_saphir_row` in parser_saphir.py is
independent of the reconciliation state: for every row and every two
values of the `prev_balance` argument the emitted date, description,
amount, direction and balance coincide, because the function returns
after the positional column assignment and the delta-match code after
the first `return` is unreachable. -/
theorem saphir_row_independent_of_prev (r : PSRowIn) (p q : Option Q) :
    parse_saphir_row r p = parse_saphir_row r q := by
  cases r <;> rfl

/-- Claim C5 counterexample: a row of parser_saphir.py that matches the
row-start pattern (two leading dates) but whose trailing text yields no
usable amount token is dropped (`_parse_saphir_row` returns `None`),
not emitted with null amount and direction. -/
theorem saphir_row_no_token_dropped :
    parse_saphir_row
      (.matched "05/01/2025" "06/01/2025" [.txt "FRAIS TENUE DE COMPTE"])
      (some (qofn 1000)) = none := by
  decide

/-- Claim C5 amended: in the generic Saphir parser of parser.py a
recognized row with no usable amount token is still emitted, with
amount and direction set to `None`, and processing of subsequent rows
continues; in parser_saphir.py's `_parse_saphir_row` such a row is
dropped (`None`), though processing of subsequent rows continues
there as well. -/
theorem no_token_row_emitted_or_dropped :
    (∀ (prev : Option Q) (r : SafirRow) (rs : List SafirRow),
      parse_tokens r.toks = [] →
      safir_txs prev (r :: rs) =
        { date := r.date, montant := none, sens := none, solde_norm := none,
          solde_val := none, m_span := none, s_span := none } :: safir_txs prev rs) ∧
    (∀ (prev : Option Q) (r : PSRowIn) (rs : List PSRowIn),
      parse_saphir_row r prev = none →
      saphir_txs prev (r :: rs) = saphir_txs prev rs) := by
  constructor
  · intro prev r rs h
    simp [safir_txs, safir_row_step, h, sort_le]
  · intro prev r rs h
    simp [saphir_txs, saphir_step, h]

theorem safir_step_solde (prev : Option Q) (r : SafirRow) (b : Q)
    (h : (safir_row_step prev r).1.solde_val = some b) :
    (safir_row_step prev r).2 = some b := by
  rcases hm : (sort_le le_start (parse_tokens r.toks)).getLast? with _ | solde
  · simp [safir_row_step, hm] at h
  · simp [safir_row_step, hm] at h ⊢
    exact h

theorem safir_states_get0 (prev : Option Q) (rows : List SafirRow) :
    (safir_states prev rows).get? 0 = some prev := by
  cases rows <;> rfl

theorem safir_continuity (rows : List SafirRow) (init : Option Q) (i : Nat) (tx : SafirTx) (b : Q)
    (h1 : (safir_txs init rows).get? i = some tx) (h2 : tx.solde_val = some b) :
    (safir_states init rows).get? (i + 1) = some (some b) := by
  induction rows generalizing init i with
  | nil => simp [safir_txs] at h1
  | cons r rs ih =>
    cases i with
    | zero =>
      simp [safir_txs] at h1
      subst h1
      show (safir_states (safir_row_step init r).2 rs).get? 0 = some (some b)
      rw [safir_states_get0, safir_step_solde init r b h2]
    | succ i =>
      simp only [safir_txs, List.get?] at h1
      exact ih (safir_row_step init r).2 i h1

theorem saphir_step_solde (prev : Option Q) (r : PSRowIn) (tx : PSTx) (s : String) (b : Q)
    (h1 : parse_saphir_row r prev = some tx) (h2 : tx.solde = some s) (h3 : parseQ s = some b) :
    (saphir_step prev r).2 = some b := by
  simp [saphir_step, h1, h2, h3]

theorem saphir_states_get0 (prev : Option Q) (rows : List PSRowIn) :
    (saphir_states prev rows).get? 0 = some prev := by
  cases rows <;> rfl

theorem saphir_continuity (rows : List PSRowIn) (init : Option Q) (i : Nat)
    (r : PSRowIn) (st : Option Q) (tx : PSTx) (s : String) (b : Q)
    (hr : rows.get? i = some r)
    (hs : (saphir_states init rows).get? i = some st)
    (h1 : parse_saphir_row r st = some tx)
    (h2 : tx.solde = some s) (h3 : parseQ s = some b) :
    (saphir_states init rows).get? (i + 1) = some (some b) := by
  induction rows generalizing init i with
  | nil => simp at hr
  | cons r0 rs ih =>
    cases i with
    | zero =>
      simp at hr
      subst hr
      have hst : st = init := by
        simp [saphir_states] at hs
        exact hs.symm
      subst hst
      show (saphir_states (saphir_step st r0).2 rs).get? 0 = some (some b)
      rw [saphir_states_get0, saphir_step_solde st r0 tx s b h1 h2 h3]
    | succ i =>
      simp only [List.get?] at hr
      simp only [saphir_states, List.get?] at hs
      exact ih (saphir_step init r0).2 i hr hs

theorem wordsAux_word (w : List Char) (hw : ∀ c ∈ w, pySpace c = false) (l acc : List Char) :
    wordsAux (w ++ l) acc = wordsAux l (w.reverse ++ acc) := by
  induction w generalizing acc with
  | nil => simp
  | cons c w' ih =>
    have hc : pySpace c = false := hw c (by simp)
    have hw' : ∀ x ∈ w', pySpace x = false := fun x hx => hw x (by simp [hx])
    simp only [List.cons_append, wordsAux, hc, Bool.false_eq_true, if_false, List.append_eq]
    rw [ih hw' (c :: acc)]
    simp [List.append_assoc]

theorem wordsAux_all_good (l : List Char) (acc : List Char)
    (hacc : ∀ c ∈ acc, pySpace c = false) :
    ∀ w ∈ wordsAux l acc, w ≠ [] ∧ ∀ c ∈ w, pySpace c = false := by
  induction l generalizing acc with
  | nil =>
    intro w hw
    simp only [wordsAux] at hw
    split at hw
    · simp at hw
    · next hne =>
      simp at hw
      subst hw
      constructor
      · simp
        intro h0
        exact hne (by simp [h0, List.isEmpty_iff])
      · intro c hc
        exact hacc c (by simpa using hc)
  | cons c cs ih =>
    intro w hw
    simp only [wordsAux] at hw
    by_cases hc : pySpace c
    · rw [if_pos hc] at hw
      by_cases he : acc.isEmpty
      · rw [if_pos he] at hw
        exact ih [] (by simp) w hw
      · rw [if_neg he] at hw
        rcases List.mem_cons.mp hw with h1 | h2
        · subst h1
          constructor
          · simp
            intro h0
            exact he (by simp [h0, List.isEmpty_iff])
          · intro x hx
            exact hacc x (by simpa using hx)
        · exact ih [] (by simp) w h2
    · rw [if_neg hc] at hw
      refine ih (c :: acc) ?_ w hw
      intro x hx
      rcases List.mem_cons.mp hx with h1 | h2
      · subst h1
        simpa using hc
      · exact hacc x h2

theorem words_joinSp (ws : List (List Char))
    (h : ∀ w ∈ ws, w ≠ [] ∧ ∀ c ∈ w, pySpace c = false) :
    words (joinSp ws) = ws := by
  induction ws with
  | nil => rfl
  | cons w ws' ih =>
    obtain ⟨hne, hw⟩ := h w (by simp)
    cases ws' with
    | nil =>
      show words (joinSp [w]) = [w]
      have h1 : joinSp [w] = w := rfl
      rw [h1]
      unfold words
      have h2 := wordsAux_word w hw [] []
      rw [List.append_nil] at h2
      rw [h2]
      simp only [wordsAux, List.append_nil]
      rw [if_neg (by simpa using hne)]
      simp
    | cons w2 ws'' =>
      have h1 : joinSp (w :: w2 :: ws'') = w ++ ' ' :: joinSp (w2 :: ws'') := rfl
      rw [h1]
      unfold words
      rw [wordsAux_word w hw]
      simp only [wordsAux, List.append_nil]
      rw [if_pos (by decide)]
      rw [if_neg (by simpa using hne)]
      simp only [List.reverse_reverse]
      have := ih (fun x hx => h x (by simp [hx]))
      unfold words at this
      rw [this]

theorem norm_spaces_l_idem (l : List Char) :
    norm_spaces_l (norm_spaces_l l) = norm_spaces_l l := by
  unfold norm_spaces_l
  exact congrArg joinSp (words_joinSp (words l) (wordsAux_all_good l [] (by simp)))

/-- Claim C7 counterexample: the full line-normalization pass
`_fix_split_dates` is not idempotent.  Splicing the continuation line
"/24 tail 3/4" onto "x 1/2" produces a line ending in the truncated
date "3/4", which a second pass merges with the following "/25" line,
so normalizing the output again changes it. -/
theorem fix_split_dates_not_idempotent :
    fix_split_dates (fix_split_dates ["x 1/2", "/24 tail 3/4", "/25"]) ≠
      fix_split_dates ["x 1/2", "/24 tail 3/4", "/25"] := by
  decide

/-- Claim C7 amended: the per-line whitespace normalization
`_norm_spaces` is idempotent on every line, but the full pass
`_fix_split_dates` is not: a spliced continuation line's remaining text
can itself end in a truncated date, which a second pass merges with
the next line. -/
theorem norm_spaces_idem (s : String) : norm_spaces (norm_spaces s) = norm_spaces s := by
  show (⟨norm_spaces_l (⟨norm_spaces_l s.data⟩ : String).data⟩ : String) = ⟨norm_spaces_l s.data⟩
  exact congrArg String.mk (norm_spaces_l_idem s.data)

/-- Witness for the amended claim C7, at one concrete line. -/
theorem norm_spaces_idem_witness :
    norm_spaces (norm_spaces "  a   b  ") = norm_spaces "  a   b  " :=
  norm_spaces_idem "  a   b  "

theorem getLast_cons_map (f : String → String) (d : String) (rest : List String) :
    (f d :: rest.map f).getLast (List.cons_ne_nil _ _) =
      f ((d :: rest).getLast (List.cons_ne_nil d rest)) := by
  induction rest generalizing d with
  | nil => rfl
  | cons x xs ih =>
    simp only [List.map_cons]
    have h1 : (f x :: List.map f xs) ≠ [] := by simp
    have h2 : (x :: xs) ≠ [] := by simp
    rw [List.getLast_cons h1, List.getLast_cons h2]
    exact ih x

/-- Helper: `_extract_period_from_txs` (parser_saphir.py) on a
non-empty transaction list whose dates all match the date pattern
yields "first date - last date" in table order, with 2-digit years
expanded to 20YY by `expand_year`. -/
theorem period_first_last (d : String) (rest : List String)
    (h : ∀ x ∈ d :: rest, date_re_prefix x = true) :
    extract_period_from_txs ((d :: rest).map some) =
      some (expand_year d ++ " - " ++
        expand_year ((d :: rest).getLast (List.cons_ne_nil d rest))) := by
  have key : ∀ (ds : List String), (∀ x ∈ ds, date_re_prefix x = true) →
      (ds.map some).filterMap (fun d? => match d? with
        | some d => if date_re_prefix d then some (expand_year d) else none
        | none => none) = ds.map expand_year := by
    intro ds hds
    induction ds with
    | nil => rfl
    | cons a as ih =>
      have ha := hds a (by simp)
      simp only [List.map_cons, List.filterMap_cons, ha, if_true]
      rw [ih (fun x hx => hds x (by simp [hx]))]
  unfold extract_period_from_txs
  dsimp only
  rw [key (d :: rest) h]
  simp only [List.map_cons]
  rw [getLast_cons_map]

theorem foldl_dates_prefix (lines : List String) (acc : List String) :
    ∃ tail, lines.foldl (fun a l => a ++ findall_dates l) acc = acc ++ tail := by
  induction lines generalizing acc with
  | nil => exact ⟨[], by simp⟩
  | cons x xs ih =>
    obtain ⟨t, ht⟩ := ih (acc ++ findall_dates x)
    exact ⟨findall_dates x ++ t, by simp [ht, List.append_assoc]⟩

/-- Claim C8 counterexample: the generic `detect_period` of parser.py,
also cited by the claim, does not derive "first - last transaction
date".  On a ledger table dated 02/01/2025 through 31/01/2025 in table
order it returns the first TWO date matches found anywhere — the first
row's date and value-date, "02/01/2025 - 02/01/2025" — and on a table
with 2-digit years its `\d{2}/\d{2}/\d{4}` pattern matches nothing, so
no year is ever expanded. -/
theorem detect_period_not_first_last :
    detect_period
      ["02/01/2025 02/01/2025 VIREMENT 50 000 150 000",
       "15/01/2025 16/01/2025 PAIEMENT 1 000 149 000",
       "31/01/2025 31/01/2025 FRAIS 500 148 500"] =
      some "02/01/2025 - 02/01/2025" ∧
    detect_period
      ["02/01/2025 02/01/2025 VIREMENT 50 000 150 000",
       "15/01/2025 16/01/2025 PAIEMENT 1 000 149 000",
       "31/01/2025 31/01/2025 FRAIS 500 148 500"] ≠
      some "02/01/2025 - 31/01/2025" ∧
    detect_period ["02/01/25 03/01/25 X 1 000 2 000"] = none := by
  decide

/-- Claim C8 amended: the specialized derivation
`_extract_period_from_txs` (parser_saphir.py) does return "date of
first transaction - date of last transaction" in table order with
2-digit years expanded to 20YY; but the generic `detect_period`
(parser.py), also cited by the claim, instead returns the first two
`DD/MM/YYYY` matches found anywhere in the lines — for a ledger table
with date and value-date columns that is the first row's two dates,
regardless of every later line — and never expands 2-digit years. -/
theorem period_derivations :
    (∀ (d : String) (rest : List String),
      (∀ x ∈ d :: rest, date_re_prefix x = true) →
      extract_period_from_txs ((d :: rest).map some) =
        some (expand_year d ++ " - " ++
          expand_year ((d :: rest).getLast (List.cons_ne_nil d rest)))) ∧
    (∀ (l0 : String) (rest : List String) (d0 d1 : String) (ds : List String),
      findall_dates l0 = d0 :: d1 :: ds →
      detect_period (l0 :: rest) = some (d0 ++ " - " ++ d1)) := by
  constructor
  · exact period_first_last
  · intro l0 rest d0 d1 ds h
    unfold detect_period
    dsimp only
    simp only [List.foldl_cons, List.nil_append]
    obtain ⟨t, ht⟩ := foldl_dates_prefix rest (findall_dates l0)
    rw [ht, h]
    rfl

/-- Witness for the amended claim C8: the specialized derivation at the
spec's January 2025 table, and the generic one at a concrete first row
whose two dates win regardless of the later lines. -/
theorem period_derivations_witness :
    extract_period_from_txs (["02/01/2025", "15/01/2025", "31/01/2025"].map some) =
      some "02/01/2025 - 31/01/2025" ∧
    detect_period ["02/01/2025 02/01/2025 VIREMENT",
      "31/01/2025 31/01/2025 FRAIS"] = some "02/01/2025 - 02/01/2025" := by
  constructor
  · rw [period_derivations.1 "02/01/2025" ["15/01/2025", "31/01/2025"] (by decide)]
    decide
  · rw [period_derivations.2 "02/01/2025 02/01/2025 VIREMENT"
      ["31/01/2025 31/01/2025 FRAIS"] "02/01/2025" "02/01/2025" [] (by decide)]
    decide

theorem header_step_compte (h : Header) (hl : HLine) :
    (header_step h hl).compte = (acct_value hl).getD h.compte := by
  unfold header_step step_solde step_acct step_libelle step_titu
  cases ht : titu_value hl <;> cases hlb : libelle_value hl <;>
    cases ha : acct_value hl <;> cases hs : solde_value hl <;>
      simp <;> split <;> simp

theorem header_step_solde_init (h : Header) (hl : HLine) :
    (header_step h hl).solde_initial =
      ((solde_value hl).map some).getD h.solde_initial := by
  unfold header_step step_solde step_acct step_libelle step_titu
  cases ht : titu_value hl <;> cases hlb : libelle_value hl <;>
    cases ha : acct_value hl <;> cases hs : solde_value hl <;>
      simp <;> split <;> simp

theorem header_step_titu_set (h : Header) (hl : HLine) (v : String)
    (hv : titu_value hl = some v) (hne : v ≠ "") :
    (header_step h hl).titulaire = v := by
  unfold header_step step_solde step_acct step_libelle step_titu
  rw [hv]
  cases hlb : libelle_value hl <;>
    cases ha : acct_value hl <;> cases hs : solde_value hl <;>
      simp [hne]

theorem header_step_titu_keep (h : Header) (hl : HLine) (v : String)
    (hv : titu_value hl = none) (hcur : h.titulaire = v) (hne : v ≠ "") :
    (header_step h hl).titulaire = v := by
  unfold header_step step_solde step_acct step_libelle step_titu
  rw [hv]
  cases hlb : libelle_value hl <;>
    cases ha : acct_value hl <;> cases hs : solde_value hl <;>
      simp [hcur, hne]

theorem foldl_compte_keep (suf : List HLine) (h : Header)
    (hn : ∀ x ∈ suf, acct_value x = none) :
    (suf.foldl header_step h).compte = h.compte := by
  induction suf generalizing h with
  | nil => rfl
  | cons x xs ih =>
    simp only [List.foldl_cons]
    rw [ih _ (fun y hy => hn y (by simp [hy])), header_step_compte, hn x (by simp)]
    rfl

theorem foldl_solde_keep (suf : List HLine) (h : Header)
    (hn : ∀ x ∈ suf, solde_value x = none) :
    (suf.foldl header_step h).solde_initial = h.solde_initial := by
  induction suf generalizing h with
  | nil => rfl
  | cons x xs ih =>
    simp only [List.foldl_cons]
    rw [ih _ (fun y hy => hn y (by simp [hy])), header_step_solde_init, hn x (by simp)]
    rfl

theorem foldl_titu_keep (suf : List HLine) (h : Header) (v : String)
    (hcur : h.titulaire = v) (hne : v ≠ "")
    (hn : ∀ x ∈ suf, titu_value x = none) :
    (suf.foldl header_step h).titulaire = v := by
  induction suf generalizing h with
  | nil => exact hcur
  | cons x xs ih =>
    simp only [List.foldl_cons]
    exact ih _ (header_step_titu_keep _ _ v (hn x (by simp)) hcur hne)
      (fun y hy => hn y (by simp [hy]))

/-- Claim C9 counterexample: header extraction is not
first-match-wins.  With two account-number label lines, the extracted
account is the value of the second line, not the first. -/
theorem header_second_account_wins :
    (extract_header [⟨"numéro de compte : 111111", []⟩,
      ⟨"numéro de compte : 222222", []⟩]).compte = "222222" ∧
    (extract_header [⟨"numéro de compte : 111111", []⟩,
      ⟨"numéro de compte : 222222", []⟩]).compte ≠ "111111" := by
  decide

/-- Claim C9 amended: header extraction is last-match-wins per field:
every matching line overwrites the field, so the extracted value is the
one taken from the last matching line (for the holder, provided the
assigned value is non-empty, since an empty holder re-enables the
libellé fallback). -/
theorem header_last_match_wins (pre suf : List HLine) (hl : HLine) :
    (∀ v, acct_value hl = some v → (∀ x ∈ suf, acct_value x = none) →
      (extract_header (pre ++ hl :: suf)).compte = v) ∧
    (∀ v, solde_value hl = some v → (∀ x ∈ suf, solde_value x = none) →
      (extract_header (pre ++ hl :: suf)).solde_initial = some v) ∧
    (∀ v, titu_value hl = some v → v ≠ "" → (∀ x ∈ suf, titu_value x = none) →
      (extract_header (pre ++ hl :: suf)).titulaire = v) := by
  unfold extract_header
  rw [List.foldl_append]
  simp only [List.foldl_cons]
  refine ⟨?_, ?_, ?_⟩
  · intro v hv hn
    rw [foldl_compte_keep _ _ hn, header_step_compte, hv]
    rfl
  · intro v hv hn
    rw [foldl_solde_keep _ _ hn, header_step_solde_init, hv]
    rfl
  · intro v hv hne hn
    exact foldl_titu_keep _ _ v (header_step_titu_set _ _ v hv hne) hne hn

/-- Witness for the amended claim C9, at two concrete account lines:
the later line's value is extracted. -/
theorem header_last_match_wins_witness :
    (extract_header ([⟨"numéro de compte : 111111", []⟩] ++
        ⟨"numéro de compte : 222222", []⟩ :: [])).compte = "222222" :=
  (header_last_match_wins [⟨"numéro de compte : 111111", []⟩] []
    ⟨"numéro de compte : 222222", []⟩).1 "222222" (by decide) (by simp)

theorem header_step_id (h : Header) (hl : HLine)
    (hn : no_header_labels hl = true) : header_step h hl = h := by
  unfold no_header_labels at hn
  simp only [Bool.and_eq_true] at hn
  obtain ⟨⟨⟨⟨h1, h2⟩, h3⟩, h4⟩, h5⟩ := hn
  have h1' := (Bool.not_eq_true' _).mp h1
  have h2' := (Bool.not_eq_true' _).mp h2
  have h3' := (Bool.not_eq_true' _).mp h3
  have h4' := (Bool.not_eq_true' _).mp h4
  have h5' := (Bool.not_eq_true' _).mp h5
  have ht : titu_value hl = none := by
    unfold titu_value
    simp [h1']
  have hlb : libelle_value hl = none := by
    unfold libelle_value
    simp [h2']
  have ha : acct_value hl = none := by
    unfold acct_value
    simp [h3', h4']
  have hs : solde_value hl = none := by
    unfold solde_value
    simp [h5']
  have e1 : step_titu h hl = h := by
    unfold step_titu
    rw [ht]
  have e2 : step_libelle h hl = h := by
    unfold step_libelle
    rw [hlb]
    split <;> rfl
  have e3 : step_acct h hl = h := by
    unfold step_acct
    rw [ha]
  have e4 : step_solde h hl = h := by
    unfold step_solde
    rw [hs]
  unfold header_step
  rw [e1, e2, e3, e4]

/-- Claim C10 counterexample: on a specialized-family document with no
header label line, `_extract_header` hardcodes three fields — bank
name, holder AND the account number — so the account is fabricated
rather than left absent. -/
theorem header_defaults_fabricate_account :
    (extract_header []).banque = "Afriland First Bank" ∧
    (extract_header []).titulaire = "SAFIR CONSULTING CAMEROUN" ∧
    (extract_header []).compte = "00002-08237521001-09 XAF" ∧
    (extract_header []).solde_initial = none := by
  decide

/-- Claim C10 amended: when no header label line is present, the
extracted header is exactly the hardcoded `header_init`: bank name,
holder and account number are institutional defaults, and only the
opening balance is left absent. -/
theorem extract_header_no_labels (lines : List HLine)
    (h : ∀ x ∈ lines, no_header_labels x = true) :
    extract_header lines = header_init := by
  unfold extract_header
  induction lines with
  | nil => rfl
  | cons x xs ih =>
    simp only [List.foldl_cons]
    rw [header_step_id header_init x (h x (by simp))]
    exact ih (fun y hy => h y (by simp [hy]))

/-- Witness for the amended claim C10, at one concrete label-free line. -/
theorem extract_header_no_labels_witness :
    extract_header [⟨"RELEVE BANCAIRE", []⟩] = header_init :=
  extract_header_no_labels [⟨"RELEVE BANCAIRE", []⟩] (by decide)

/-- Claim C6 counterexample: the token text "2024" is matched by the
`\d{4,}` alternative of `AMOUNT_RE`, and the live row parser of
parser_saphir.py extracts amounts without the plausibility filter, so a
row whose trailing tokens are 2024, 50 000 and 150 000 selects "2024"
as its movement amount. -/
theorem year_token_selected_as_amount :
    amount_tok_match "2024" = true ∧
    (parse_saphir_row (.matched "31/12/2024" "31/12/2024"
      [.txt "VIR REF ", .tok "2024", .txt " ", .tok "50 000", .txt " ", .tok "150 000"])
      none).map PSTx.montant = some (some "2024") := by
  decide

/-- Claim C6 amended: the plausibility filter `_plausible_amount_token`
rejects "24", "2024" and "05" on every input line, and the amount regex
itself can never match "24" or "05"; normalization maps "1 257 225" to
"1257225" and "5,40" to "5.40".  However the live row parser bypasses
the plausibility filter (its only caller is dead code), so "2024" can
still be selected as an amount. -/
theorem plausibility_and_normalization :
    (∀ line : String,
      plausible_amount_token "24" line = false ∧
      plausible_amount_token "2024" line = false ∧
      plausible_amount_token "05" line = false) ∧
    amount_tok_match "24" = false ∧ amount_tok_match "05" = false ∧
    norm_amount_txt "1 257 225" = "1257225" ∧ norm_amount_txt "5,40" = "5.40" := by
  refine ⟨?_, by decide, by decide, by decide, by decide⟩
  intro line
  refine ⟨?_, ?_, ?_⟩ <;>
  · unfold plausible_amount_token
    dsimp only
    split
    · rfl
    · split
      · rfl
      · decide

/-- Witness for the amended claim C6, at one concrete line. -/
theorem plausibility_and_normalization_witness :
    plausible_amount_token "24" "foo 24 2024 05" = false ∧
    plausible_amount_token "2024" "foo 24 2024 05" = false ∧
    plausible_amount_token "05" "foo 24 2024 05" = false :=
  plausibility_and_normalization.1 "foo 24 2024 05"

theorem mem_insert_le {le : α → α → Bool} {x a : α} {l : List α} :
    a ∈ insert_le le x l ↔ a = x ∨ a ∈ l := by
  induction l with
  | nil => simp [insert_le]
  | cons y ys ih =>
    simp only [insert_le]
    split
    · simp
    · simp [ih]
      tauto

theorem mem_sort_le {le : α → α → Bool} {a : α} {l : List α} :
    a ∈ sort_le le l ↔ a ∈ l := by
  induction l with
  | nil => simp [sort_le]
  | cons x xs ih =>
    simp [sort_le, mem_insert_le, ih]

theorem insert_le_all {le : α → α → Bool} {x : α} {l : List α}
    (h : ∀ y ∈ l, le x y = true) : insert_le le x l = x :: l := by
  cases l with
  | nil => rfl
  | cons y ys => simp [insert_le, h y (by simp)]

theorem sort_le_pairwise_id {le : α → α → Bool} {l : List α}
    (h : l.Pairwise (fun a b => le a b = true)) : sort_le le l = l := by
  induction l with
  | nil => rfl
  | cons x xs ih =>
    rw [List.pairwise_cons] at h
    simp only [sort_le]
    rw [ih h.2, insert_le_all h.1]

theorem choose_montant_mem (prev : Option Q) (ps : List Parsed5) (solde : Parsed5)
    (h2 : 2 ≤ ps.length) : choose_montant prev ps solde ∈ ps.dropLast := by
  have hcne : ps.dropLast ≠ [] := by
    have : ps.dropLast.length = ps.length - 1 := List.length_dropLast ps
    intro h0
    rw [h0] at this
    simp at this
    omega
  have hgl : ps.dropLast.getLast? = some (ps.dropLast.getLast hcne) :=
    List.getLast?_eq_getLast _ hcne
  have hglmem : ps.dropLast.getLast hcne ∈ ps.dropLast := List.getLast_mem hcne
  unfold choose_montant
  dsimp only
  cases prev with
  | none =>
    simp [hgl, hglmem]
  | some pb =>
    dsimp only
    rcases hh : (sort_le (fun a b => qle (qabs (qsub a.val (qabs (qsub solde.val pb)))) (qabs (qsub b.val (qabs (qsub solde.val pb))))) ps.dropLast).head? with _ | best
    · simp [hh, hgl, hglmem]
    · have hbmem : best ∈ ps.dropLast := by
        have hm0 := List.mem_of_mem_head? hh
        exact mem_sort_le.mp hm0
      rw [hh]
      cases hce : close_enough (qabs (qsub solde.val pb)) best.val
      · simp [hce, hgl, hglmem]
      · simp [hce, hbmem]

theorem pairwise_rel_getLast {R : α → α → Prop} {l : List α} (hp : l.Pairwise R)
    (hne : l ≠ []) {m : α} (hm : m ∈ l.dropLast) : R m (l.getLast hne) := by
  have hsplit := List.dropLast_append_getLast hne
  rw [← hsplit] at hp
  rw [List.pairwise_append] at hp
  exact hp.2.2 m hm _ (by simp)

/-- Claim C4 counterexample: in parser.py, a row whose trailing text has
exactly one usable amount token emits that token both as the movement
amount and as the balance, with identical (hence overlapping) removal
spans — not as the balance only. -/
theorem single_token_double_consumed :
    (safir_row_step (some (qofn 1000))
      { date := "04/01/2025", tail := "SOLDE 950", toks := [⟨6, 9, "950"⟩] }).1.montant = some "950" ∧
    (safir_row_step (some (qofn 1000))
      { date := "04/01/2025", tail := "SOLDE 950", toks := [⟨6, 9, "950"⟩] }).1.m_span = some (6, 9) ∧
    (safir_row_step (some (qofn 1000))
      { date := "04/01/2025", tail := "SOLDE 950", toks := [⟨6, 9, "950"⟩] }).1.s_span = some (6, 9) := by
  decide

/-- Claim C4 amended: for rows with at least two usable tokens whose
regex spans are ordered and non-overlapping (as `re.finditer`
guarantees), the spans excised for the chosen amount and for the
balance are disjoint; but for a row with exactly one usable token,
parser.py treats that token as both amount and balance: the two spans
coincide and the amount equals the balance, instead of the token being
the balance only. -/
theorem safir_spans (prev : Option Q) (r : SafirRow)
    (hp : (parse_tokens r.toks).Pairwise (fun a b => a.e ≤ b.s))
    (hlt : ∀ p ∈ parse_tokens r.toks, p.s < p.e) :
    (2 ≤ (parse_tokens r.toks).length →
      ∃ ma sa, (safir_row_step prev r).1.m_span = some ma ∧
        (safir_row_step prev r).1.s_span = some sa ∧ span_disjoint ma sa) ∧
    (∀ p, parse_tokens r.toks = [p] →
      (safir_row_step prev r).1.m_span = (safir_row_step prev r).1.s_span ∧
      (safir_row_step prev r).1.montant = (safir_row_step prev r).1.solde_norm) := by
  have hsorted : sort_le le_start (parse_tokens r.toks) = parse_tokens r.toks := by
    apply sort_le_pairwise_id
    refine hp.imp_of_mem ?_
    intro a b ha hb hab
    have := hlt a ha
    simp [le_start]
    omega
  constructor
  · intro hlen
    have hne : parse_tokens r.toks ≠ [] := by
      intro h0
      rw [h0] at hlen
      simp at hlen
    have hlast : (parse_tokens r.toks).getLast? =
        some ((parse_tokens r.toks).getLast hne) := List.getLast?_eq_getLast _ hne
    have hmem := choose_montant_mem prev (parse_tokens r.toks)
      ((parse_tokens r.toks).getLast hne) (by omega)
    have hrel := pairwise_rel_getLast hp hne hmem
    simp only [safir_row_step, hsorted, hlast]
    refine ⟨_, _, rfl, rfl, ?_⟩
    exact Or.inl hrel
  · intro p hp1
    simp [safir_row_step, hsorted, hp1, choose_montant, sort_le, insert_le]
    cases prev <;> simp

/-- Witness for the amended claim C4, at a concrete two-token row with
ordered non-overlapping spans. -/
theorem safir_spans_witness :
    ∃ ma sa,
      (safir_row_step (some (qofn 1000))
        { date := "01/02/2021", tail := "OP X 50 950",
          toks := [⟨5, 7, "50"⟩, ⟨8, 11, "950"⟩] }).1.m_span = some ma ∧
      (safir_row_step (some (qofn 1000))
        { date := "01/02/2021", tail := "OP X 50 950",
          toks := [⟨5, 7, "50"⟩, ⟨8, 11, "950"⟩] }).1.s_span = some sa ∧
      span_disjoint ma sa :=
  (safir_spans (some (qofn 1000))
    { date := "01/02/2021", tail := "OP X 50 950",
      toks := [⟨5, 7, "50"⟩, ⟨8, 11, "950"⟩] }
    (by decide) (by decide)).1 (by decide)

/-- Claim C2: balance continuity.  In parser.py, whenever the
transaction emitted for row `i` carries a balance value, the
`prev_solde` used when processing row `i+1` is exactly that value; in
parser_saphir.py, whenever row `i` parses to a transaction whose
balance string converts to a number, the `prev_balance` used for row
`i+1` is that number — unconditionally, even when the row's amount and
direction are unknown. -/
theorem balance_continuity :
    (∀ (rows : List SafirRow) (init : Option Q) (i : Nat) (tx : SafirTx) (b : Q),
      (safir_txs init rows).get? i = some tx → tx.solde_val = some b →
      (safir_states init rows).get? (i + 1) = some (some b)) ∧
    (∀ (rows : List PSRowIn) (init : Option Q) (i : Nat)
      (r : PSRowIn) (st : Option Q) (tx : PSTx) (s : String) (b : Q),
      rows.get? i = some r →
      (saphir_states init rows).get? i = some st →
      parse_saphir_row r st = some tx →
      tx.solde = some s → parseQ s = some b →
      (saphir_states init rows).get? (i + 1) = some (some b)) :=
  ⟨safir_continuity, saphir_continuity⟩

/-- Witness for claim C2, at one concrete one-row run per parser: the
balance 950 recognised by row 0 is the state used for row 1, also when
amount and direction are unknown (specialized parser, single token). -/
theorem balance_continuity_witness :
    (safir_states (some (qofn 1000)) [{ date := "d", tail := "t", toks := [⟨0, 3, "950"⟩] }]).get? 1 =
      some (some (qofn 950)) ∧
    (saphir_states none [.matched "d" "e" [.tok "950"]]).get? 1 = some (some (qofn 950)) := by
  constructor
  · exact balance_continuity.1 [{ date := "d", tail := "t", toks := [⟨0, 3, "950"⟩] }]
      (some (qofn 1000)) 0
      { date := "d", montant := some "950", sens := some Sens.Dr, solde_norm := some "950",
        solde_val := some (qofn 950), m_span := some (0, 3), s_span := some (0, 3) }
      (qofn 950) (by decide) (by decide)
  · exact balance_continuity.2 [.matched "d" "e" [.tok "950"]] none 0
      (.matched "d" "e" [.tok "950"]) none
      { date := "d", description := "", montant := none, sens := none, solde := some "950" }
      "950" (qofn 950) (by decide) (by decide) (by decide) (by decide) (by decide)

/-- Witness for the amended claim C5, at one concrete tokenless row per
parser. -/
theorem no_token_row_emitted_or_dropped_witness :
    safir_txs none [{ date := "05/01/2025", tail := "FRAIS", toks := [] }] =
      [{ date := "05/01/2025", montant := none, sens := none, solde_norm := none,
         solde_val := none, m_span := none, s_span := none }] ∧
    saphir_txs none [.matched "05/01/2025" "06/01/2025" [.txt "FRAIS"]] = [] := by
  constructor
  · exact (no_token_row_emitted_or_dropped.1 none
      { date := "05/01/2025", tail := "FRAIS", toks := [] } [] rfl).trans (by decide)
  · exact (no_token_row_emitted_or_dropped.2 none
      (.matched "05/01/2025" "06/01/2025" [.txt "FRAIS"]) [] (by decide)).trans (by decide)

end OCRFin
